import Mathlib

/-
  Verification development for the ai-talks repository.

  The definitions below are a shallow embedding of the TypeScript sources:

  * `mget` / `mset` / `mdelete`  — the JavaScript `Map` operations used by the
    in-memory stores (`tasks`, `environmentVariables`) and by the HTTP session
    map (`transports`).  A JS `Map` is iteration-ordered and never holds two
    entries with the same key, so it is embedded as an association list in
    which `set` replaces in place (keeping the entry position) or appends,
    and `delete` drops the pairs carrying the key (at most one on any state a
    `Map` can reach).
  * Task tools       — src/mcp-server/src/tools/taskTools.ts
  * Result envelopes — src/mcp-server/src/utils/index.ts
  * Env-var tools    — src/mcp-server/src/tools/envTools.ts
  * Tool registry    — src/mcp-server/src/tools/index.ts
  * Notes repository — src/nest-notes-app/src/notes/note.repository.ts
  * HTTP session map — the express `/mcp` routes (POST/GET/DELETE) of the
    streamable-HTTP server file.

  Conventions: timestamps (`new Date()`) are modelled as natural numbers
  (milliseconds); their string rendering (`toISOString`, `toLocaleString`) is
  abstracted as decimal rendering, which affects only display text.  Random
  identifiers (`generateId`, `randomUUID`) are inputs of the embedding.
-/

namespace AITalks

/-! ### JavaScript Map embedding -/

/-- `Map.get`: the value stored under `key`, if any (first occurrence). -/
def mget {α : Type} : List (String × α) → String → Option α
  | [], _ => none
  | (k, v) :: rest, key => if k = key then some v else mget rest key

/-- `Map.set`: replace the entry in place when the key exists, append
otherwise (JS `Map` keeps insertion order on overwrite). -/
def mset {α : Type} : List (String × α) → String → α → List (String × α)
  | [], key, v => [(key, v)]
  | (k, w) :: rest, key, v =>
    if k = key then (k, v) :: rest else (k, w) :: mset rest key v

/-- `Map.delete`: remove the entry with the key.  A JS `Map` holds at most one
entry per key, so dropping every pair with the key is the same operation. -/
def mdelete {α : Type} : List (String × α) → String → List (String × α)
  | [], _ => []
  | (k, v) :: rest, key =>
    if k = key then mdelete rest key else (k, v) :: mdelete rest key

/-! ### Result envelopes (src/mcp-server/src/utils/index.ts)

`ToolResult.content` always holds a single text chunk in these handlers, so it
is embedded as one `text` field plus the `isError` flag. -/

structure ToolResult where
  text : String
  isError : Bool
deriving DecidableEq, Repr

/-- `createSuccessResult` from utils: text body with `isError: false`. -/
def createSuccessResult (message : String) : ToolResult :=
  ⟨message, false⟩

/-- `createErrorResult` from utils: prefixes the message and sets
`isError: true`. -/
def createErrorResult (message : String) : ToolResult :=
  ⟨"❌ Error: " ++ message, true⟩

/-! ### Task model (src/mcp-server/src/types, taskTools.ts) -/

inductive Priority
  | low
  | medium
  | high
deriving DecidableEq, Repr

structure Task where
  id : String
  title : String
  description : String
  completed : Bool
  createdAt : Nat
  updatedAt : Option Nat := none
  priority : Option Priority := none
  tags : List String := []
deriving DecidableEq, Repr

/-- The in-memory `tasks : Map<string, Task>` store. -/
abbrev TaskMap : Type := List (String × Task)

/-- Splitting the tags input on commas, trimming, dropping empties. -/
def splitTags (s : String) : List String :=
  ((s.splitOn ",").map String.trim).filter (fun t => !t.isEmpty)

/-- The tag list computed by `create-task`: JS string truthiness on
`params.tags ? ... : []` (an absent or empty string yields `[]`). -/
def taskTagsOf : Option String → List String
  | none => []
  | some t => if t.isEmpty then [] else splitTags t

def priorityName : Option Priority → String
  | some .low => "low"
  | some .medium => "medium"
  | some .high => "high"
  | none => "medium"

/-- `formatTask` from utils (emoji, status line, optional tags/updated lines);
timestamps are rendered via their decimal representation. -/
def formatTask (t : Task) : String :=
  let priorityEmoji :=
    if t.priority = some .high then "🔴"
    else if t.priority = some .medium then "🟡" else "🟢"
  let statusEmoji := if t.completed then "✅" else "⏳"
  let tags :=
    if !t.tags.isEmpty then "\n      Tags: " ++ String.intercalate ", " t.tags else ""
  let updated :=
    match t.updatedAt with
    | some u => "\n      Updated: " ++ toString u
    | none => ""
  "\n      " ++ statusEmoji ++ " " ++ priorityEmoji ++ " ID: " ++ t.id ++
    "\n      Title: " ++ t.title ++
    "\n      Description: " ++ t.description ++
    "\n      Status: " ++ (if t.completed then "Completed" else "Pending") ++
    "\n      Priority: " ++ priorityName t.priority ++ tags ++
    "\n      Created: " ++ toString t.createdAt ++ updated ++ "\n"

structure CreateTaskParams where
  title : String
  description : String
  priority : Option Priority := none
  tags : Option String := none
deriving Repr

/-- The task built by `create-task` (the generated `id` and the clock reading
are inputs of the embedding; the priority defaults to medium). -/
def mkNewTask (id : String) (p : CreateTaskParams) (now : Nat) : Task :=
  { id := id
    title := p.title
    description := p.description
    completed := false
    createdAt := now
    priority := some (p.priority.getD .medium)
    tags := taskTagsOf p.tags }

/-- `createTaskTool.handler`: builds the task, stores it, returns the success
envelope.  Result is (envelope, store after the call). -/
def createTaskStep (m : TaskMap) (id : String) (p : CreateTaskParams) (now : Nat) :
    ToolResult × TaskMap :=
  let newTask := mkNewTask id p now
  (createSuccessResult ("✅ Task created successfully!\n" ++ formatTask newTask),
    mset m id newTask)

/-- `completeTaskTool.handler`. -/
def completeTaskStep (m : TaskMap) (id : String) (now : Nat) : ToolResult × TaskMap :=
  match mget m id with
  | none => (createErrorResult ("Task with ID " ++ id ++ " not found."), m)
  | some task =>
    if task.completed then
      (createSuccessResult ("✅ Task with ID " ++ id ++ " is already marked as completed."), m)
    else
      let task := { task with completed := true, updatedAt := some now }
      (createSuccessResult ("✅ Task marked as completed:\n" ++ formatTask task),
        mset m id task)

structure UpdateTaskParams where
  id : String
  title : Option String := none
  description : Option String := none
  priority : Option Priority := none
  tags : Option String := none
deriving Repr

/-- `updateTaskTool.handler`: each provided field overwrites the stored one
(`params.x !== undefined` checks), then the update time is stamped. -/
def updateTaskStep (m : TaskMap) (p : UpdateTaskParams) (now : Nat) : ToolResult × TaskMap :=
  match mget m p.id with
  | none => (createErrorResult ("Task with ID " ++ p.id ++ " not found."), m)
  | some task =>
    let task := match p.title with | some t => { task with title := t } | none => task
    let task := match p.description with | some d => { task with description := d } | none => task
    let task := match p.priority with | some pr => { task with priority := some pr } | none => task
    let task := match p.tags with | some tg => { task with tags := splitTags tg } | none => task
    let task := { task with updatedAt := some now }
    (createSuccessResult ("✏️ Task updated successfully:\n" ++ formatTask task),
      mset m p.id task)

/-- `deleteTaskTool.handler`. -/
def deleteTaskStep (m : TaskMap) (id : String) : ToolResult × TaskMap :=
  match mget m id with
  | none => (createErrorResult ("Task with ID " ++ id ++ " not found."), m)
  | some task =>
    (createSuccessResult ("🗑️ Task deleted successfully:\n" ++ formatTask task),
      mdelete m id)

/-! ### Task listings (listTasksTool, pendingTasksTool) -/

inductive StatusFilter
  | all
  | pending
  | completed
deriving DecidableEq, Repr

structure ListTasksParams where
  status : Option StatusFilter := none
  priority : Option Priority := none
  tag : Option String := none
deriving Repr

/-- The lookup table `priorityOrder = (high: 3, medium: 2, low: 1)` indexed at
the task priority defaulting to medium. -/
def priorityOrder : Option Priority → Nat
  | some .high => 3
  | some .medium => 2
  | some .low => 1
  | none => 2

/-- Case-insensitive substring test, `a.toLowerCase().includes(b.toLowerCase())`. -/
def includesLower (s pat : String) : Bool :=
  decide (pat.toLower.data <:+: s.toLower.data)

/-- The status filter stage of `listTasksTool.handler` (status defaults to
all upstream). -/
def statusFiltered (l : List Task) : StatusFilter → List Task
  | .pending => l.filter (fun t => !t.completed)
  | .completed => l.filter (fun t => t.completed)
  | .all => l

/-- The priority filter stage (`task.priority === params.priority`). -/
def priorityFiltered (l : List Task) : Option Priority → List Task
  | some pr => l.filter (fun t => t.priority = some pr)
  | none => l

/-- The tag filter stage (case-insensitive substring match on any tag). -/
def tagFiltered (l : List Task) : Option String → List Task
  | some tg => l.filter (fun t => t.tags.any (fun s => includesLower s tg))
  | none => l

/-- The filtering pipeline of `listTasksTool.handler`: enumerate the map
values, filter by status, then priority, then tag. -/
def filterTasks (m : TaskMap) (p : ListTasksParams) : List Task :=
  tagFiltered
    (priorityFiltered
      (statusFiltered (m.map (fun e => e.2)) (p.status.getD .all))
      p.priority)
    p.tag

/-- The comparator of the listings, read as "a may stay before b", i.e.
`cmp(a,b) <= 0` for the source comparator that returns
`bPriority - aPriority` when priorities differ and
`b.createdAt - a.createdAt` otherwise (higher priority first, newer first). -/
def taskBefore (a b : Task) : Prop :=
  priorityOrder b.priority < priorityOrder a.priority ∨
    (priorityOrder a.priority = priorityOrder b.priority ∧ b.createdAt ≤ a.createdAt)

instance : DecidableRel taskBefore := fun a b => by
  unfold taskBefore; infer_instance

instance : IsTotal Task taskBefore where
  total a b := by
    unfold taskBefore
    rcases Nat.lt_trichotomy (priorityOrder a.priority) (priorityOrder b.priority)
      with h | h | h
    · exact Or.inr (Or.inl h)
    · rcases Nat.le_total b.createdAt a.createdAt with hle | hle
      · exact Or.inl (Or.inr ⟨h, hle⟩)
      · exact Or.inr (Or.inr ⟨h.symm, hle⟩)
    · exact Or.inl (Or.inl h)

instance : IsTrans Task taskBefore where
  trans a b c hab hbc := by
    unfold taskBefore at *
    rcases hab with h1 | ⟨h1, h1'⟩ <;> rcases hbc with h2 | ⟨h2, h2'⟩
    · exact Or.inl (h2.trans h1)
    · exact Or.inl (h2 ▸ h1)
    · exact Or.inl (h1 ▸ h2)
    · exact Or.inr ⟨h1.trans h2, h2'.trans h1'⟩

/-- `Array.prototype.sort` is a stable sort (ECMAScript); it is embedded as a
stable insertion sort with respect to the "may stay before" relation induced
by the source comparator. -/
def sortTasks (l : List Task) : List Task :=
  List.insertionSort taskBefore l

def statusName : StatusFilter → String
  | .all => "all"
  | .pending => "pending"
  | .completed => "completed"

/-- The "(Filtered by: ...)" suffix of the listing header. -/
def filterText (p : ListTasksParams) : String :=
  let info : List String :=
    (if p.status.getD .all ≠ .all then ["Status: " ++ statusName (p.status.getD .all)] else []) ++
    (match p.priority with
     | some pr => ["Priority: " ++ priorityName (some pr)]
     | none => []) ++
    (match p.tag with
     | some tg => ["Tag: " ++ tg]
     | none => [])
  if !info.isEmpty then " (Filtered by: " ++ String.intercalate ", " info ++ ")" else ""

/-- `listTasksTool.handler`: a pure read of the map; the second component is
the store after the call (never mutated). -/
def listTasksStep (m : TaskMap) (p : ListTasksParams) : ToolResult × TaskMap :=
  let filtered := filterTasks m p
  if filtered.isEmpty then
    (createSuccessResult "📝 No tasks found matching the specified criteria.", m)
  else
    let sorted := sortTasks filtered
    let taskList := String.intercalate "\n---\n" (sorted.map formatTask)
    (createSuccessResult ("📋 Tasks" ++ filterText p ++ ":\n" ++ taskList), m)

/-- The filtered list of `pendingTasksTool.handler`. -/
def pendingFiltered (m : TaskMap) : List Task :=
  (m.map (fun e => e.2)).filter (fun t => !t.completed)

/-- `pendingTasksTool.handler` (also a pure read). -/
def pendingTasksStep (m : TaskMap) : ToolResult × TaskMap :=
  let pendingTasks := pendingFiltered m
  if pendingTasks.isEmpty then
    (createSuccessResult "📝 No pending tasks found.", m)
  else
    let sorted := sortTasks pendingTasks
    let taskList := String.intercalate "\n---\n" (sorted.map formatTask)
    (createSuccessResult ("⏳ Pending Tasks:\n" ++ taskList), m)

/-! ### Environment variable tools (envTools.ts, utils/index.ts) -/

structure EnvVar where
  key : String
  value : String
  description : Option String := none
  isSecret : Bool := false
  createdAt : Nat
  updatedAt : Option Nat := none
deriving DecidableEq, Repr

/-- The in-memory `environmentVariables : Map<string, EnvironmentVariable>`. -/
abbrev EnvMap : Type := List (String × EnvVar)

def isAsciiUpper (c : Char) : Bool := 'A' ≤ c && c ≤ 'Z'

def isAsciiDigit (c : Char) : Bool := '0' ≤ c && c ≤ '9'

/-- The `/^[A-Z][A-Z0-9_]*$/` test of `isValidEnvKey`. -/
def isValidEnvKey (key : String) : Bool :=
  match key.data with
  | [] => false
  | c :: rest =>
    isAsciiUpper c && rest.all (fun d => isAsciiUpper d || isAsciiDigit d || d = '_')

/-- One character of `key.toUpperCase().replace(/[^A-Z0-9_]/g, '_')`. -/
def sanitizeChar (c : Char) : Char :=
  let u := c.toUpper
  if isAsciiUpper u || isAsciiDigit u || u = '_' then u else '_'

/-- `sanitizeEnvKey` from utils. -/
def sanitizeEnvKey (key : String) : String :=
  String.mk (key.data.map sanitizeChar)

structure SetEnvParams where
  key : String
  value : String
  description : Option String := none
  isSecret : Option Bool := none
deriving Repr

def featureDisabledMsg : String :=
  "Environment variables feature is disabled. Enable it by setting FEATURE_ENV_VARS_ENABLED=true"

/-- `setEnvVarTool.handler`.  `enabled` is the startup feature flag
`serverConfig.features.environmentVariablesEnabled`; mirroring of the value
into `process.env` is outside the store this claim is about. -/
def setEnvVarStep (enabled : Bool) (m : EnvMap) (p : SetEnvParams) (now : Nat) :
    ToolResult × EnvMap :=
  if !enabled then
    (createErrorResult featureDisabledMsg, m)
  else
    let sanitizedKey := sanitizeEnvKey p.key
    if !isValidEnvKey sanitizedKey then
      (createErrorResult ("Invalid environment variable key: " ++ p.key ++
        ". Keys should contain only uppercase letters, numbers, and underscores."), m)
    else
      let existingVar := mget m sanitizedKey
      let envVar : EnvVar :=
        { key := sanitizedKey
          value := p.value
          description := p.description
          isSecret := p.isSecret.getD false
          createdAt := match existingVar with | some e => e.createdAt | none => now
          updatedAt := match existingVar with | some _ => some now | none => none }
      let action := match existingVar with | some _ => "updated" | none => "created"
      (createSuccessResult ("✅ Environment variable " ++ action ++ " successfully!\nKey: " ++
        sanitizedKey), mset m sanitizedKey envVar)

/-- The map access of `getEnvVarTool.handler` (the key is sanitized first,
then looked up). -/
def envMapLookup (m : EnvMap) (key : String) : Option EnvVar :=
  mget m (sanitizeEnvKey key)

/-- `deleteEnvVarTool.handler`; deletion of `process.env[sanitizedKey]` is
outside the store. -/
def deleteEnvVarStep (enabled : Bool) (m : EnvMap) (key : String) : ToolResult × EnvMap :=
  if !enabled then
    (createErrorResult featureDisabledMsg, m)
  else
    let sanitizedKey := sanitizeEnvKey key
    match mget m sanitizedKey with
    | none =>
      (createErrorResult ("Environment variable " ++ sanitizedKey ++ " not found."), m)
    | some envVar =>
      (createSuccessResult ("🗑️ Environment variable deleted successfully:\nKey: " ++
        envVar.key), mdelete m sanitizedKey)

/-- The store-mutating operations of the environment-variable tools (get and
list never write). -/
inductive EnvOp
  | set (p : SetEnvParams) (now : Nat)
  | del (key : String)

def envApply (enabled : Bool) (m : EnvMap) : EnvOp → EnvMap
  | .set p now => (setEnvVarStep enabled m p now).2
  | .del k => (deleteEnvVarStep enabled m k).2

/-- The environment-variable store reached from the empty startup store by a
sequence of tool invocations. -/
def envReach (enabled : Bool) (ops : List EnvOp) : EnvMap :=
  ops.foldl (envApply enabled) []

/-- Canonical-key invariant: every map key passes the `isValidEnvKey` regex
and equals the `key` field of the record stored under it. -/
def envKeyInv (m : EnvMap) : Prop :=
  ∀ e ∈ m, isValidEnvKey e.1 = true ∧ e.2.key = e.1

/-! ### Tool registry (src/mcp-server/src/tools/index.ts) -/

structure ToolDefinition where
  toolName : String
deriving DecidableEq, Repr

def utilityTools : List ToolDefinition :=
  [⟨"get-datetime"⟩, ⟨"generate-uuid"⟩, ⟨"generate-random"⟩, ⟨"calculate-hash"⟩,
   ⟨"sleep"⟩, ⟨"get-server-status"⟩, ⟨"get-server-config"⟩]

def taskToolsList : List ToolDefinition :=
  [⟨"create-task"⟩, ⟨"list-tasks"⟩, ⟨"pending-tasks"⟩, ⟨"complete-task"⟩,
   ⟨"update-task"⟩, ⟨"delete-task"⟩, ⟨"task-stats"⟩]

def emailTools : List ToolDefinition :=
  [⟨"send-email"⟩, ⟨"send-html-email"⟩, ⟨"test-email"⟩, ⟨"send-task-notification"⟩]

def envToolsList : List ToolDefinition :=
  [⟨"set-env-var"⟩, ⟨"get-env-var"⟩, ⟨"list-env-vars"⟩, ⟨"delete-env-var"⟩,
   ⟨"export-env-vars"⟩]

/-- `serverConfig.features`, fixed at startup. -/
structure Features where
  emailEnabled : Bool
  environmentVariablesEnabled : Bool
  taskManagementEnabled : Bool
deriving DecidableEq, Repr

/-- `getAllTools`: utility tools always, each category only when its flag is
on, in the push order of the source. -/
def getAllTools (cfg : Features) : List ToolDefinition :=
  utilityTools ++
    (if cfg.taskManagementEnabled then taskToolsList else []) ++
    (if cfg.emailEnabled then emailTools else []) ++
    (if cfg.environmentVariablesEnabled then envToolsList else [])

/-- `getToolByName`: `find` over the registry; `none` is the "unknown
operation" outcome of dispatch. -/
def getToolByName (cfg : Features) (n : String) : Option ToolDefinition :=
  (getAllTools cfg).find? (fun t => t.toolName = n)

/-! ### Notes repository (src/nest-notes-app/src/notes/note.repository.ts) -/

structure NoteRec where
  id : Nat
  title : String
  content : String
  createdAt : Nat
deriving DecidableEq, Repr

/-- `Partial<Note>` update payload; the payload may itself carry an `id`. -/
structure PartialNote where
  id : Option Nat := none
  title : Option String := none
  content : Option String := none
  createdAt : Option Nat := none
deriving Repr

/-- The object spread `(...this.notes[index], ...entityData, id)`: provided
payload fields override the stored ones, and the trailing `id:` property wins
over any `id` in the payload. -/
def spreadNote (n : NoteRec) (d : PartialNote) (id : Nat) : NoteRec :=
  { id := id
    title := d.title.getD n.title
    content := d.content.getD n.content
    createdAt := d.createdAt.getD n.createdAt }

/-- `NoteRepository.update`: find the first note with the id; if absent return
`null` leaving the array unchanged, else overwrite that slot with the spread
and return a copy.  The recursion mirrors `findIndex` followed by assignment
at the found index. -/
def noteUpdate : List NoteRec → Nat → PartialNote → Option NoteRec × List NoteRec
  | [], _, _ => (none, [])
  | n :: rest, id, d =>
    if n.id = id then
      let updated := spreadNote n d id
      (some updated, updated :: rest)
    else
      let r := noteUpdate rest id d
      (r.1, n :: r.2)

/-! ### HTTP session map (the express `/mcp` routes)

The `transports` map sends a session token to its live
`StreamableHTTPServerTransport`; transports are identified here by a creation
counter (`nextTid`).  The route handlers are repository code; the behaviour of
the SDK transport inside `transport.handleRequest` is modelled from the spec:

Modelled from the spec: on an initialize request the transport generates a
fresh token (`randomUUID`, an input here), invokes `onsessioninitialized`
— which stores the transport in the map — before it begins handling the
inbound request, and communicates the token in the response; on a DELETE it
terminates the session, firing `onclose`, which removes the token; a transport
closing on its own also fires `onclose`. -/

structure HState where
  transports : List (String × Nat)
  nextTid : Nat
deriving DecidableEq, Repr

inductive HResponse
  | routed (tid : Nat)
  | initialized (token : String) (tid : Nat)
  | terminated (tid : Nat)
  | badRequest
  | silent
deriving DecidableEq, Repr

/-- The discrete inputs of the binding: the three HTTP methods on `/mcp`
(with the optional `mcp-session-id` header, and for POST whether the body
`isInitializeRequest` plus the `randomUUID` value used on the init path), and
the underlying transport signalling closure by itself. -/
inductive HEvent
  | post (sid : Option String) (isInit : Bool) (fresh : String)
  | get (sid : Option String)
  | del (sid : Option String)
  | close (sid : String)
deriving DecidableEq, Repr

/-- Registration performed by `onsessioninitialized`:
`transports[sessionId] = transport`. -/
def registerTransport (s : HState) (fresh : String) : HState :=
  ⟨mset s.transports fresh s.nextTid, s.nextTid + 1⟩

/-- Request handling on the init path, entered only after registration; it
reads and returns the protocol response and does not touch the session map. -/
def handleInitRequest (tid : Nat) (fresh : String) (s : HState) : HResponse × HState :=
  (.initialized fresh tid, s)

/-- One request/event against the binding.  POST: reuse the transport under a
registered token; otherwise construct-and-register on a token-less initialize
request; otherwise 400.  GET/DELETE: 400 unless the token is registered;
DELETE tears the session down (`onclose` removes the token).  `close` is the
close event of the transport itself firing `onclose`. -/
def step (s : HState) : HEvent → HResponse × HState
  | .post sid isInit fresh =>
    match sid with
    | some t =>
      match mget s.transports t with
      | some tid => (.routed tid, s)
      | none => (.badRequest, s)
    | none =>
      if isInit then
        handleInitRequest s.nextTid fresh (registerTransport s fresh)
      else
        (.badRequest, s)
  | .get sid =>
    match sid with
    | some t =>
      match mget s.transports t with
      | some tid => (.routed tid, s)
      | none => (.badRequest, s)
    | none => (.badRequest, s)
  | .del sid =>
    match sid with
    | some t =>
      match mget s.transports t with
      | some tid => (.terminated tid, ⟨mdelete s.transports t, s.nextTid⟩)
      | none => (.badRequest, s)
    | none => (.badRequest, s)
  | .close t => (.silent, ⟨mdelete s.transports t, s.nextTid⟩)

/-- The state after a sequence of events, starting from the empty map. -/
def execTrace (es : List HEvent) : HState :=
  es.foldl (fun s e => (step s e).2) ⟨[], 0⟩

/-- The spec-side predicate of the claim, transcribed: the token was produced
by a prior successful initialization (a token-less initialize request) and no
later event terminated it (explicit DELETE bearing it, or the close of its
own transport). -/
def tokenTerminator (t : String) (e : HEvent) : Prop :=
  e = .del (some t) ∨ e = .close t

def tokenLive (es : List HEvent) (t : String) : Prop :=
  ∃ es₁ es₂, es = es₁ ++ .post none true t :: es₂ ∧ ∀ e ∈ es₂, ¬ tokenTerminator t e

/-! ### Lemmas about the Map embedding -/

theorem mget_mset {α : Type} (m : List (String × α)) (k k' : String) (v : α) :
    mget (mset m k v) k' = if k = k' then some v else mget m k' := by
  induction m with
  | nil => simp [mget, mset]
  | cons e rest ih =>
    obtain ⟨k0, w⟩ := e
    by_cases h0 : k0 = k
    · cases h0
      simp only [mset, if_pos rfl, mget]
      by_cases h1 : k = k'
      · simp [h1]
      · simp [h1, mget]
    · simp only [mset, if_neg h0, mget]
      by_cases h1 : k0 = k'
      · have hne : ¬ k = k' := fun h => h0 (h1.trans h.symm)
        simp [h1, hne]
      · simp [h1, ih]

theorem mget_mdelete {α : Type} (m : List (String × α)) (k k' : String) :
    mget (mdelete m k) k' = if k = k' then none else mget m k' := by
  induction m with
  | nil => simp [mget, mdelete]
  | cons e rest ih =>
    obtain ⟨k0, w⟩ := e
    by_cases h0 : k0 = k
    · cases h0
      have hd : mdelete ((k, w) :: rest) k = mdelete rest k := by simp [mdelete]
      rw [hd, ih]
      by_cases h1 : k = k'
      · simp [h1]
      · simp [h1, mget]
    · simp only [mdelete, if_neg h0, mget]
      by_cases h1 : k0 = k'
      · have hne : ¬ k = k' := fun h => h0 (h1.trans h.symm)
        simp [h1, hne]
      · simp [h1, ih]

theorem mget_eq_none_of_absent {α : Type} (m : List (String × α)) (k : String)
    (h : ∀ e ∈ m, e.1 ≠ k) : mget m k = none := by
  induction m with
  | nil => rfl
  | cons e rest ih =>
    have hk : e.1 ≠ k := h e (List.mem_cons_self e rest)
    obtain ⟨k0, v⟩ := e
    simp only [mget, if_neg hk]
    exact ih fun x hx => h x (List.mem_cons_of_mem _ hx)

theorem mset_of_absent {α : Type} (m : List (String × α)) (k : String) (v : α)
    (h : mget m k = none) : mset m k v = m ++ [(k, v)] := by
  induction m with
  | nil => rfl
  | cons e rest ih =>
    obtain ⟨k0, w⟩ := e
    simp only [mget] at h
    by_cases h0 : k0 = k
    · simp [h0] at h
    · simp only [mset, if_neg h0, List.cons_append, List.cons.injEq, true_and]
      exact ih (by simpa [h0] using h)

/-! ### Lemmas about the session trace -/

theorem execTrace_snoc (es : List HEvent) (e : HEvent) :
    execTrace (es ++ [e]) = (step (execTrace es) e).2 := by
  simp [execTrace, List.foldl_append]

theorem snoc_eq_append_cons {α : Type} {es es₁ es₂ : List α} {e x : α}
    (h : es ++ [e] = es₁ ++ x :: es₂) :
    (es₂ = [] ∧ es = es₁ ∧ e = x) ∨
      ∃ es₃, es₂ = es₃ ++ [e] ∧ es = es₁ ++ x :: es₃ := by
  rcases List.eq_nil_or_concat es₂ with h2 | ⟨l, a, h2⟩
  · subst h2
    have h' := List.append_inj' h rfl
    exact Or.inl ⟨rfl, h'.1, by simpa using h'.2⟩
  · subst h2
    have h' : es ++ [e] = (es₁ ++ x :: l) ++ [a] := by
      rw [h]; simp [List.concat_eq_append]
    have h'' := List.append_inj' h' rfl
    have ha : e = a := by simpa using h''.2
    subst ha
    exact Or.inr ⟨l, by simp [List.concat_eq_append], h''.1⟩

theorem tokenLive_snoc_self (es : List HEvent) (t : String) :
    tokenLive (es ++ [.post none true t]) t :=
  ⟨es, [], rfl, by simp⟩

theorem not_tokenLive_snoc_term (es : List HEvent) (t : String) (e : HEvent)
    (he : tokenTerminator t e) : ¬ tokenLive (es ++ [e]) t := by
  rintro ⟨es₁, es₂, heq, hfree⟩
  rcases snoc_eq_append_cons heq with ⟨-, -, h3⟩ | ⟨es₃, h2, -⟩
  · subst h3
    rcases he with h | h <;> exact HEvent.noConfusion h
  · exact hfree e (h2 ▸ List.mem_append_right _ (List.mem_singleton_self e)) he

theorem tokenLive_snoc_other (es : List HEvent) (t : String) (e : HEvent)
    (hinit : e ≠ .post none true t) (hterm : ¬ tokenTerminator t e) :
    tokenLive (es ++ [e]) t ↔ tokenLive es t := by
  constructor
  · rintro ⟨es₁, es₂, heq, hfree⟩
    rcases snoc_eq_append_cons heq with ⟨-, -, h3⟩ | ⟨es₃, h2, h1⟩
    · exact absurd h3 hinit
    · exact ⟨es₁, es₃, h1, fun x hx => hfree x (h2 ▸ List.mem_append_left _ hx)⟩
  · rintro ⟨es₁, es₂, heq, hfree⟩
    refine ⟨es₁, es₂ ++ [e], by rw [heq]; simp, fun x hx => ?_⟩
    rcases List.mem_append.1 hx with hx | hx
    · exact hfree x hx
    · rw [List.mem_singleton.1 hx]; exact hterm

/-- The session map holds a token exactly when the token is live in the trace
sense (initialized, not since terminated). -/
theorem mget_isSome_iff_tokenLive (es : List HEvent) (t : String) :
    (mget (execTrace es).transports t).isSome = true ↔ tokenLive es t := by
  induction es using List.reverseRecOn with
  | nil =>
    constructor
    · intro h; simp [execTrace, mget] at h
    · rintro ⟨es₁, es₂, heq, -⟩
      exact absurd heq (by simp)
  | append_singleton es e ih =>
    rw [execTrace_snoc]
    cases e with
    | post sid isInit fresh =>
      cases sid with
      | some u =>
        have hs : (step (execTrace es) (.post (some u) isInit fresh)).2 = execTrace es := by
          simp only [step]
          cases mget (execTrace es).transports u <;> rfl
        rw [hs, tokenLive_snoc_other es t _ (by simp)
          (by rintro (h | h) <;> exact HEvent.noConfusion h)]
        exact ih
      | none =>
        cases isInit with
        | false =>
          have hs : (step (execTrace es) (.post none false fresh)).2 = execTrace es := rfl
          rw [hs, tokenLive_snoc_other es t _ (by simp)
            (by rintro (h | h) <;> exact HEvent.noConfusion h)]
          exact ih
        | true =>
          have hs : (step (execTrace es) (.post none true fresh)).2 =
              registerTransport (execTrace es) fresh := rfl
          rw [hs]
          by_cases hf : fresh = t
          · subst hf
            refine iff_of_true ?_ (tokenLive_snoc_self es fresh)
            simp [registerTransport, mget_mset]
          · have hm : mget (registerTransport (execTrace es) fresh).transports t =
                mget (execTrace es).transports t := by
              simp [registerTransport, mget_mset, hf]
            rw [hm, tokenLive_snoc_other es t _
              (by intro h; exact hf (by injection h))
              (by rintro (h | h) <;> exact HEvent.noConfusion h)]
            exact ih
    | get sid =>
      have hs : (step (execTrace es) (.get sid)).2 = execTrace es := by
        cases sid with
        | none => rfl
        | some u =>
          simp only [step]
          cases mget (execTrace es).transports u <;> rfl
      rw [hs, tokenLive_snoc_other es t _ (by simp)
        (by rintro (h | h) <;> exact HEvent.noConfusion h)]
      exact ih
    | del sid =>
      cases sid with
      | none =>
        have hs : (step (execTrace es) (.del none)).2 = execTrace es := rfl
        rw [hs, tokenLive_snoc_other es t _ (by simp)
          (by rintro (h | h) <;> simp at h)]
        exact ih
      | some u =>
        by_cases hu : u = t
        · subst hu
          refine iff_of_false ?_
            (not_tokenLive_snoc_term es u _ (Or.inl rfl))
          cases hmu : mget (execTrace es).transports u with
          | none => simp [step, hmu]
          | some tid => simp [step, hmu, mget_mdelete]
        · have hterm : ¬ tokenTerminator t (.del (some u)) := by
            rintro (h | h)
            · exact hu (by injection h with h'; injection h')
            · exact HEvent.noConfusion h
          have hm : mget (step (execTrace es) (.del (some u))).2.transports t =
              mget (execTrace es).transports t := by
            cases hmu : mget (execTrace es).transports u with
            | none => simp [step, hmu]
            | some tid => simp [step, hmu, mget_mdelete, hu]
          rw [hm, tokenLive_snoc_other es t _ (by simp) hterm]
          exact ih
    | close u =>
      by_cases hu : u = t
      · subst hu
        refine iff_of_false ?_ (not_tokenLive_snoc_term es u _ (Or.inr rfl))
        simp [step, mget_mdelete]
      · have hterm : ¬ tokenTerminator t (.close u) := by
          rintro (h | h)
          · exact HEvent.noConfusion h
          · exact hu (by injection h)
        have hm : mget (step (execTrace es) (.close u)).2.transports t =
            mget (execTrace es).transports t := by
          simp [step, mget_mdelete, hu]
        rw [hm, tokenLive_snoc_other es t _ (by simp) hterm]
        exact ih

/-! ### Claim theorems -/

/-- C1: a session token is accepted by the HTTP binding (POST/GET/DELETE is
not answered 400) iff it was produced by a prior successful initialization and
has not since been terminated; a request bearing an unknown token is rejected
without state change; a request bearing a registered token is routed to that
transport of that token; an initialize request registers the fresh token to the
newly created transport. -/
theorem session_token_accept_iff (es : List HEvent) (t : String) (b : Bool) (f g : String) :
    ((step (execTrace es) (.post (some t) b f)).1 ≠ .badRequest ↔ tokenLive es t) ∧
    ((step (execTrace es) (.get (some t))).1 ≠ .badRequest ↔ tokenLive es t) ∧
    ((step (execTrace es) (.del (some t))).1 ≠ .badRequest ↔ tokenLive es t) ∧
    (¬ tokenLive es t →
      step (execTrace es) (.post (some t) b f) = (.badRequest, execTrace es)) ∧
    (∀ tid, mget (execTrace es).transports t = some tid →
      (step (execTrace es) (.post (some t) b f)).1 = .routed tid) ∧
    mget (execTrace (es ++ [.post none true g])).transports g =
      some (execTrace es).nextTid := by
  have hlive := mget_isSome_iff_tokenLive es t
  have hlast : mget (execTrace (es ++ [.post none true g])).transports g =
      some (execTrace es).nextTid := by
    rw [execTrace_snoc]
    show mget (registerTransport (execTrace es) g).transports g = _
    simp [registerTransport, mget_mset]
  cases hm : mget (execTrace es).transports t with
  | none =>
    have hnl : ¬ tokenLive es t := by
      rw [← hlive, hm]; simp
    refine ⟨?_, ?_, ?_, ?_, ?_, hlast⟩
    · simp [step, hm, hnl]
    · simp [step, hm, hnl]
    · simp [step, hm, hnl]
    · intro _; simp [step, hm]
    · intro tid htid
      exact Option.noConfusion htid
  | some tid =>
    have hl : tokenLive es t := by
      rw [← hlive, hm]; rfl
    refine ⟨?_, ?_, ?_, ?_, ?_, hlast⟩
    · simp [step, hm, hl]
    · simp [step, hm, hl]
    · simp [step, hm, hl]
    · intro h; exact absurd hl h
    · intro tid' htid'
      obtain rfl : tid = tid' := Option.some.inj htid'
      simp [step, hm]

/-- C1 witness: after one initialization producing token `s1`, a POST bearing
`s1` is routed to the transport registered for it (transport id 0). -/
theorem session_token_accept_iff_witness :
    (step (execTrace [HEvent.post none true "s1"]) (.post (some "s1") false "f2")).1 =
      .routed 0 :=
  (session_token_accept_iff [HEvent.post none true "s1"] "s1" false "f2" "g").2.2.2.2.1 0 rfl

/-- C2: a request to the protocol endpoint bearing a missing or unrecognized
session token that is not a token-less initialize request is answered 400 and
leaves the session state (map and counter) exactly unchanged. -/
theorem session_reject_no_state_change (s : HState) (t f : String) (b : Bool)
    (hm : mget s.transports t = none) :
    step s (.post none false f) = (.badRequest, s) ∧
    step s (.post (some t) b f) = (.badRequest, s) ∧
    step s (.get (some t)) = (.badRequest, s) ∧
    step s (.get none) = (.badRequest, s) ∧
    step s (.del (some t)) = (.badRequest, s) ∧
    step s (.del none) = (.badRequest, s) := by
  refine ⟨rfl, ?_, ?_, rfl, ?_, rfl⟩ <;> simp [step, hm]

/-- C2 witness: at the empty session state, a POST bearing the unknown token
`ghost` is rejected with no state change. -/
theorem session_reject_no_state_change_witness :
    step ⟨[], 0⟩ (.post (some "ghost") false "f") = (.badRequest, ⟨[], 0⟩) :=
  (session_reject_no_state_change ⟨[], 0⟩ "ghost" "f" false rfl).2.1

/-- C3: the initialization path factors as request handling run strictly after
registration: the state in which the connection object begins handling the
inbound request already maps the fresh token to the new transport, and the
handling stage itself leaves the session map untouched. -/
theorem init_registers_before_handling (s : HState) (f : String) :
    step s (.post none true f) = handleInitRequest s.nextTid f (registerTransport s f) ∧
    mget (registerTransport s f).transports f = some s.nextTid ∧
    (handleInitRequest s.nextTid f (registerTransport s f)).2 = registerTransport s f := by
  refine ⟨rfl, ?_, rfl⟩
  simp [registerTransport, mget_mset]

/-- C4 counterexample: invoking complete-task / update-task / delete-task with
an id absent from the (empty) task map yields envelopes whose `isError` flag
is `true` — the flag does not indicate success, refuting the claim as
stated. -/
theorem task_notfound_success_flag_cex :
    (completeTaskStep [] "missing-id" 0).1.isError = true ∧
    (updateTaskStep [] ⟨"missing-id", none, none, none, none⟩ 0).1.isError = true ∧
    (deleteTaskStep [] "missing-id").1.isError = true :=
  ⟨rfl, rfl, rfl⟩

/-- C4 (amended): when complete-task, update-task or delete-task references an
id absent from the task map, the handler returns normally (no transport-level
error) with a result envelope whose text explains the not-found condition,
whose `isError` flag is `true`, and the task map is unchanged. -/
theorem task_notfound_error_envelope (m : TaskMap) (p : UpdateTaskParams) (now : Nat)
    (hm : mget m p.id = none) :
    completeTaskStep m p.id now =
      (createErrorResult ("Task with ID " ++ p.id ++ " not found."), m) ∧
    updateTaskStep m p now =
      (createErrorResult ("Task with ID " ++ p.id ++ " not found."), m) ∧
    deleteTaskStep m p.id =
      (createErrorResult ("Task with ID " ++ p.id ++ " not found."), m) := by
  refine ⟨?_, ?_, ?_⟩ <;> simp [completeTaskStep, updateTaskStep, deleteTaskStep, hm]

/-- C4 witness: the amended statement at the empty map and id `x`. -/
theorem task_notfound_error_envelope_witness :
    completeTaskStep [] "x" 0 =
      (createErrorResult ("Task with ID " ++ "x" ++ " not found."), []) :=
  (task_notfound_error_envelope [] ⟨"x", none, none, none, none⟩ 0 rfl).1

/-- C5: create/read/delete round-trip on the storage maps.  On the task map:
for a key absent from the map, lookup reports not-found; after create-task
stores a task under the key, lookup returns the stored record whose fields
equal the input; after delete-task removes it, lookup reports not-found again.
On the environment-variable map: after set-env-var stores a record under an
(admissible) key, the sanitized lookup returns the record with the input
value; after delete-env-var, it reports not-found again. -/
theorem storage_crud_roundtrip (m : TaskMap) (k : String) (p : CreateTaskParams) (now : Nat)
    (em : EnvMap) (ek ev : String) (d : Option String) (sec : Option Bool)
    (habs : ∀ e ∈ m, e.1 ≠ k)
    (hval : isValidEnvKey (sanitizeEnvKey ek) = true) :
    mget m k = none ∧
    mget (createTaskStep m k p now).2 k = some (mkNewTask k p now) ∧
    (mkNewTask k p now).title = p.title ∧
    (mkNewTask k p now).description = p.description ∧
    (mkNewTask k p now).completed = false ∧
    (mkNewTask k p now).createdAt = now ∧
    mget (deleteTaskStep (createTaskStep m k p now).2 k).2 k = none ∧
    (∃ rec, envMapLookup (setEnvVarStep true em ⟨ek, ev, d, sec⟩ now).2 ek = some rec ∧
      rec.value = ev ∧ rec.key = sanitizeEnvKey ek) ∧
    envMapLookup
      (deleteEnvVarStep true (setEnvVarStep true em ⟨ek, ev, d, sec⟩ now).2 ek).2 ek =
      none := by
  have h0 : mget m k = none := mget_eq_none_of_absent m k habs
  have h1 : mget (createTaskStep m k p now).2 k = some (mkNewTask k p now) := by
    simp [createTaskStep, mget_mset]
  have h2 : envMapLookup (setEnvVarStep true em ⟨ek, ev, d, sec⟩ now).2 ek =
      some { key := sanitizeEnvKey ek
             value := ev
             description := d
             isSecret := sec.getD false
             createdAt := match mget em (sanitizeEnvKey ek) with
               | some e => e.createdAt
               | none => now
             updatedAt := match mget em (sanitizeEnvKey ek) with
               | some _ => some now
               | none => none } := by
    simp [setEnvVarStep, hval, envMapLookup, mget_mset]
  refine ⟨h0, h1, rfl, rfl, rfl, rfl, ?_, ⟨_, h2, rfl, rfl⟩, ?_⟩
  · simp [deleteTaskStep, h1, mget_mdelete]
  · unfold envMapLookup at h2 ⊢
    simp [deleteEnvVarStep, h2, mget_mdelete]

/-- C5 witness: the round-trip at the empty maps with keys `t1` and `k1`. -/
theorem storage_crud_roundtrip_witness :
    mget (deleteTaskStep
      (createTaskStep [] "t1" ⟨"a", "b", none, none⟩ 5).2 "t1").2 "t1" = none ∧
    envMapLookup
      (deleteEnvVarStep true
        (setEnvVarStep true [] ⟨"k1", "v", none, none⟩ 5).2 "k1").2 "k1" = none :=
  ⟨(storage_crud_roundtrip [] "t1" ⟨"a", "b", none, none⟩ 5 [] "k1" "v" none none
      (by simp) (by decide)).2.2.2.2.2.2.1,
   (storage_crud_roundtrip [] "t1" ⟨"a", "b", none, none⟩ 5 [] "k1" "v" none none
      (by simp) (by decide)).2.2.2.2.2.2.2.2⟩

/-- C6: on any task-map state, list-tasks with the `pending` status filter
produces a listing containing no completed task (likewise the pending-tasks
listing), and both handlers leave the map unchanged. -/
theorem pending_filter_excludes_completed (m : TaskMap) (p : ListTasksParams)
    (hp : p.status = some .pending) :
    (∀ t ∈ sortTasks (filterTasks m p), t.completed = false) ∧
    (listTasksStep m p).2 = m ∧
    (∀ t ∈ sortTasks (pendingFiltered m), t.completed = false) ∧
    (pendingTasksStep m).2 = m := by
  refine ⟨?_, ?_, ?_, ?_⟩
  · intro t ht
    have ht' : t ∈ filterTasks m p :=
      (List.perm_insertionSort taskBefore (filterTasks m p)).mem_iff.1 ht
    unfold filterTasks at ht'
    have ht2 : t ∈ priorityFiltered
        (statusFiltered (m.map (fun e => e.2)) (p.status.getD .all)) p.priority := by
      cases htg : p.tag with
      | none => rw [htg] at ht'; exact ht'
      | some tg =>
        rw [htg] at ht'
        exact (List.mem_filter.1 ht').1
    have ht3 : t ∈ statusFiltered (m.map (fun e => e.2)) (p.status.getD .all) := by
      cases hpr : p.priority with
      | none => rw [hpr] at ht2; exact ht2
      | some pr =>
        rw [hpr] at ht2
        exact (List.mem_filter.1 ht2).1
    rw [hp] at ht3
    have := (List.mem_filter.1 ht3).2
    simpa using this
  · by_cases h : (filterTasks m p).isEmpty <;> simp [listTasksStep, h]
  · intro t ht
    have ht' : t ∈ pendingFiltered m :=
      (List.perm_insertionSort taskBefore (pendingFiltered m)).mem_iff.1 ht
    have := (List.mem_filter.1 ht').2
    simpa using this
  · by_cases h : (pendingFiltered m).isEmpty <;> simp [pendingTasksStep, h]

/-- C6 witness: on a map holding one completed and one pending task, the
pending listing leaves the map unchanged (and the filter applies). -/
theorem pending_filter_excludes_completed_witness :
    (listTasksStep
      [("a", ⟨"a", "t", "d", true, 0, none, none, []⟩),
       ("b", ⟨"b", "u", "e", false, 1, none, none, []⟩)]
      ⟨some .pending, none, none⟩).2 =
      [("a", ⟨"a", "t", "d", true, 0, none, none, []⟩),
       ("b", ⟨"b", "u", "e", false, 1, none, none, []⟩)] :=
  (pending_filter_excludes_completed
    [("a", ⟨"a", "t", "d", true, 0, none, none, []⟩),
     ("b", ⟨"b", "u", "e", false, 1, none, none, []⟩)]
    ⟨some .pending, none, none⟩ rfl).2.1

/-- C7: every pair of adjacent tasks in the sorted listings satisfies the
comparator order — the earlier task has strictly higher priority rank, or
equal rank and a creation time at least that of the later one — and listing twice
with no intervening writes returns the identical result. -/
theorem listing_sort_order (m : TaskMap) (p : ListTasksParams) :
    List.Chain' taskBefore (sortTasks (filterTasks m p)) ∧
    List.Chain' taskBefore (sortTasks (pendingFiltered m)) ∧
    (listTasksStep m p).1 = (listTasksStep (listTasksStep m p).2 p).1 ∧
    (pendingTasksStep m).1 = (pendingTasksStep (pendingTasksStep m).2).1 := by
  refine ⟨?_, ?_, ?_, ?_⟩
  · exact List.Pairwise.chain' (List.sorted_insertionSort taskBefore _)
  · exact List.Pairwise.chain' (List.sorted_insertionSort taskBefore _)
  · have h2 : (listTasksStep m p).2 = m := by
      by_cases h : (filterTasks m p).isEmpty <;> simp [listTasksStep, h]
    rw [h2]
  · have h2 : (pendingTasksStep m).2 = m := by
      by_cases h : (pendingFiltered m).isEmpty <;> simp [pendingTasksStep, h]
    rw [h2]

/-! ### Registry lemmas -/

theorem taskNames_not_elsewhere :
    ∀ n ∈ taskToolsList.map ToolDefinition.toolName,
      n ∉ utilityTools.map ToolDefinition.toolName ∧
      n ∉ emailTools.map ToolDefinition.toolName ∧
      n ∉ envToolsList.map ToolDefinition.toolName := by decide

theorem emailNames_not_elsewhere :
    ∀ n ∈ emailTools.map ToolDefinition.toolName,
      n ∉ utilityTools.map ToolDefinition.toolName ∧
      n ∉ taskToolsList.map ToolDefinition.toolName ∧
      n ∉ envToolsList.map ToolDefinition.toolName := by decide

theorem envNames_not_elsewhere :
    ∀ n ∈ envToolsList.map ToolDefinition.toolName,
      n ∉ utilityTools.map ToolDefinition.toolName ∧
      n ∉ taskToolsList.map ToolDefinition.toolName ∧
      n ∉ emailTools.map ToolDefinition.toolName := by decide

theorem notin_getAllTools (cfg : Features) (n : String)
    (hu : n ∉ utilityTools.map ToolDefinition.toolName)
    (ht : cfg.taskManagementEnabled = true → n ∉ taskToolsList.map ToolDefinition.toolName)
    (he : cfg.emailEnabled = true → n ∉ emailTools.map ToolDefinition.toolName)
    (hv : cfg.environmentVariablesEnabled = true →
      n ∉ envToolsList.map ToolDefinition.toolName) :
    (∀ t ∈ getAllTools cfg, t.toolName ≠ n) ∧ getToolByName cfg n = none := by
  have hmem : ∀ t ∈ getAllTools cfg, t.toolName ≠ n := by
    intro t htm heq
    unfold getAllTools at htm
    rcases List.mem_append.1 htm with htm2 | htmV
    · rcases List.mem_append.1 htm2 with htm3 | htmE
      · rcases List.mem_append.1 htm3 with htmU | htmT
        · exact hu (heq ▸ List.mem_map_of_mem _ htmU)
        · cases hT : cfg.taskManagementEnabled
          · rw [hT] at htmT; simp at htmT
          · rw [hT] at htmT
            simp only [if_true] at htmT
            exact ht hT (heq ▸ List.mem_map_of_mem _ htmT)
      · cases hE : cfg.emailEnabled
        · rw [hE] at htmE; simp at htmE
        · rw [hE] at htmE
          simp only [if_true] at htmE
          exact he hE (heq ▸ List.mem_map_of_mem _ htmE)
    · cases hV : cfg.environmentVariablesEnabled
      · rw [hV] at htmV; simp at htmV
      · rw [hV] at htmV
        simp only [if_true] at htmV
        exact hv hV (heq ▸ List.mem_map_of_mem _ htmV)
  refine ⟨hmem, ?_⟩
  exact List.find?_eq_none.mpr fun t htm => by simpa using hmem t htm

/-- C8: when the flag of a feature category is off at startup, none of its
operation names occurs in the registry and `getToolByName` yields the absent
("unknown operation") result for them; utility tools are present under every
flag configuration. -/
theorem registry_feature_flags (cfg : Features) (n : String) :
    (cfg.taskManagementEnabled = false → n ∈ taskToolsList.map ToolDefinition.toolName →
      (∀ t ∈ getAllTools cfg, t.toolName ≠ n) ∧ getToolByName cfg n = none) ∧
    (cfg.emailEnabled = false → n ∈ emailTools.map ToolDefinition.toolName →
      (∀ t ∈ getAllTools cfg, t.toolName ≠ n) ∧ getToolByName cfg n = none) ∧
    (cfg.environmentVariablesEnabled = false → n ∈ envToolsList.map ToolDefinition.toolName →
      (∀ t ∈ getAllTools cfg, t.toolName ≠ n) ∧ getToolByName cfg n = none) ∧
    (∀ t ∈ utilityTools, t ∈ getAllTools cfg) := by
  refine ⟨?_, ?_, ?_, ?_⟩
  · intro hflag hn
    obtain ⟨h1, h2, h3⟩ := taskNames_not_elsewhere n hn
    refine notin_getAllTools cfg n h1 ?_ (fun _ => h2) (fun _ => h3)
    intro hT
    exact absurd (hflag.symm.trans hT) (by simp)
  · intro hflag hn
    obtain ⟨h1, h2, h3⟩ := emailNames_not_elsewhere n hn
    refine notin_getAllTools cfg n h1 (fun _ => h2) ?_ (fun _ => h3)
    intro hE
    exact absurd (hflag.symm.trans hE) (by simp)
  · intro hflag hn
    obtain ⟨h1, h2, h3⟩ := envNames_not_elsewhere n hn
    refine notin_getAllTools cfg n h1 (fun _ => h2) (fun _ => h3) ?_
    intro hV
    exact absurd (hflag.symm.trans hV) (by simp)
  · intro t ht
    unfold getAllTools
    exact List.mem_append_left _ (List.mem_append_left _ (List.mem_append_left _ ht))

/-- C8 witness: with task management disabled, `create-task` resolves to the
absent result. -/
theorem registry_feature_flags_witness :
    getToolByName ⟨true, true, false⟩ "create-task" = none :=
  ((registry_feature_flags ⟨true, true, false⟩ "create-task").1 rfl (by decide)).2

/-! ### Environment store lemmas -/

theorem envKeyInv_mset (m : EnvMap) (k : String) (v : EnvVar)
    (hk : isValidEnvKey k = true) (hv : v.key = k) :
    envKeyInv m → envKeyInv (mset m k v) := by
  induction m with
  | nil =>
    intro _ e he
    simp only [mset, List.mem_singleton] at he
    subst he
    exact ⟨hk, hv⟩
  | cons q rest ih =>
    intro hm e he
    obtain ⟨k0, w⟩ := q
    by_cases h0 : k0 = k
    · rw [show mset ((k0, w) :: rest) k v = (k0, v) :: rest from by simp [mset, h0]] at he
      rcases List.mem_cons.1 he with rfl | hin
      · exact ⟨by rw [h0]; exact hk, by rw [h0]; exact hv⟩
      · exact hm _ (List.mem_cons_of_mem _ hin)
    · rw [show mset ((k0, w) :: rest) k v = (k0, w) :: mset rest k v from
        by simp [mset, h0]] at he
      rcases List.mem_cons.1 he with rfl | hin
      · exact hm _ (List.mem_cons_self _ _)
      · exact ih (fun x hx => hm x (List.mem_cons_of_mem _ hx)) _ hin

theorem envKeyInv_mdelete (m : EnvMap) (k : String) :
    envKeyInv m → envKeyInv (mdelete m k) := by
  induction m with
  | nil => intro h; exact h
  | cons q rest ih =>
    intro hm e he
    obtain ⟨k0, w⟩ := q
    by_cases h0 : k0 = k
    · rw [show mdelete ((k0, w) :: rest) k = mdelete rest k from by simp [mdelete, h0]] at he
      exact ih (fun x hx => hm x (List.mem_cons_of_mem _ hx)) _ he
    · rw [show mdelete ((k0, w) :: rest) k = (k0, w) :: mdelete rest k from
        by simp [mdelete, h0]] at he
      rcases List.mem_cons.1 he with rfl | hin
      · exact hm _ (List.mem_cons_self _ _)
      · exact ih (fun x hx => hm x (List.mem_cons_of_mem _ hx)) _ hin

theorem envKeyInv_apply (enabled : Bool) (m : EnvMap) (op : EnvOp)
    (hm : envKeyInv m) : envKeyInv (envApply enabled m op) := by
  cases op with
  | set p now =>
    cases enabled with
    | false => simpa [envApply, setEnvVarStep] using hm
    | true =>
      by_cases hval : isValidEnvKey (sanitizeEnvKey p.key) = true
      · have : envApply true m (.set p now) =
            mset m (sanitizeEnvKey p.key)
              { key := sanitizeEnvKey p.key
                value := p.value
                description := p.description
                isSecret := p.isSecret.getD false
                createdAt := match mget m (sanitizeEnvKey p.key) with
                  | some e => e.createdAt
                  | none => now
                updatedAt := match mget m (sanitizeEnvKey p.key) with
                  | some _ => some now
                  | none => none } := by
          simp [envApply, setEnvVarStep, hval]
        rw [this]
        exact envKeyInv_mset m _ _ hval rfl hm
      · simpa [envApply, setEnvVarStep, hval] using hm
  | del k =>
    cases enabled with
    | false => simpa [envApply, deleteEnvVarStep] using hm
    | true =>
      cases hmk : mget m (sanitizeEnvKey k) with
      | none => simpa [envApply, deleteEnvVarStep, hmk] using hm
      | some ev =>
        have : envApply true m (.del k) = mdelete m (sanitizeEnvKey k) := by
          simp [envApply, deleteEnvVarStep, hmk]
        rw [this]
        exact envKeyInv_mdelete m _ hm

theorem envKeyInv_foldl (enabled : Bool) (ops : List EnvOp) :
    ∀ m : EnvMap, envKeyInv m → envKeyInv (ops.foldl (envApply enabled) m) := by
  induction ops with
  | nil => intro m hm; exact hm
  | cons op rest ih =>
    intro m hm
    exact ih _ (envKeyInv_apply enabled m op hm)

/-- C9: every state of the environment-variable store reachable by set/delete
tool invocations satisfies the canonical-key invariant — each map key passes
the uppercase-identifier check and equals the `key` field of the record — and two
caller keys sanitizing to the same canonical form address the same entry in
lookup, set, and delete. -/
theorem env_canonical_keys (enabled : Bool) (ops : List EnvOp) (m : EnvMap)
    (k₁ k₂ v : String) (d : Option String) (sec : Option Bool) (now : Nat)
    (h : sanitizeEnvKey k₁ = sanitizeEnvKey k₂) :
    envKeyInv (envReach enabled ops) ∧
    envMapLookup m k₁ = envMapLookup m k₂ ∧
    (setEnvVarStep enabled m ⟨k₁, v, d, sec⟩ now).2 =
      (setEnvVarStep enabled m ⟨k₂, v, d, sec⟩ now).2 ∧
    (deleteEnvVarStep enabled m k₁).2 = (deleteEnvVarStep enabled m k₂).2 := by
  refine ⟨?_, ?_, ?_, ?_⟩
  · exact envKeyInv_foldl enabled ops [] (fun e he => absurd he (List.not_mem_nil e))
  · unfold envMapLookup
    rw [h]
  · cases enabled with
    | false => rfl
    | true =>
      simp only [setEnvVarStep, h]
      by_cases hval : isValidEnvKey (sanitizeEnvKey k₂) = true <;> simp [hval]
  · cases enabled with
    | false => rfl
    | true =>
      simp only [deleteEnvVarStep, h]

/-- C9 witness: from the empty store, the invariant holds after setting via
the lower-case alias `db_url`, and the mixed-case alias addresses the same
entry. -/
theorem env_canonical_keys_witness :
    envKeyInv (envReach true [.set ⟨"db_url", "x", none, none⟩ 3]) ∧
    envMapLookup (envReach true [.set ⟨"db_url", "x", none, none⟩ 3]) "db_url" =
      envMapLookup (envReach true [.set ⟨"db_url", "x", none, none⟩ 3]) "DB_url" :=
  ⟨(env_canonical_keys true [.set ⟨"db_url", "x", none, none⟩ 3] [] "a" "a" "x"
      none none 0 rfl).1,
   (env_canonical_keys true [.set ⟨"db_url", "x", none, none⟩ 3]
      (envReach true [.set ⟨"db_url", "x", none, none⟩ 3]) "db_url" "DB_url" "x"
      none none 0 (by decide)).2.1⟩

/-- C10: `NoteRepository.update` preserves identity — a returned note carries
the requested id and is stored; the result is `null` exactly when no note with
the id exists, in which case the store is unchanged; and the stored sequence
of ids is never altered by an update. -/
theorem noteUpdate_preserves_id (notes : List NoteRec) (id : Nat) (d : PartialNote) :
    (∀ n, (noteUpdate notes id d).1 = some n → n.id = id ∧ n ∈ (noteUpdate notes id d).2) ∧
    ((noteUpdate notes id d).1 = none ↔ ∀ n ∈ notes, n.id ≠ id) ∧
    ((noteUpdate notes id d).1 = none → (noteUpdate notes id d).2 = notes) ∧
    (noteUpdate notes id d).2.map NoteRec.id = notes.map NoteRec.id := by
  induction notes with
  | nil =>
    refine ⟨?_, ?_, ?_, ?_⟩
    · intro n hn; exact Option.noConfusion hn
    · simp [noteUpdate]
    · intro _; rfl
    · rfl
  | cons q rest ih =>
    obtain ⟨ih1, ih2, ih3, ih4⟩ := ih
    by_cases h : q.id = id
    · refine ⟨?_, ?_, ?_, ?_⟩
      · intro n hn
        simp only [noteUpdate, if_pos h] at hn ⊢
        obtain rfl : spreadNote q d id = n := Option.some.inj hn
        exact ⟨rfl, List.mem_cons_self _ _⟩
      · simp [noteUpdate, h]
      · intro hn
        simp [noteUpdate, h] at hn
      · simp [noteUpdate, h, spreadNote]
    · refine ⟨?_, ?_, ?_, ?_⟩
      · intro n hn
        simp only [noteUpdate, if_neg h] at hn ⊢
        obtain ⟨hid, hmem⟩ := ih1 n hn
        exact ⟨hid, List.mem_cons_of_mem _ hmem⟩
      · simp only [noteUpdate, if_neg h]
        rw [ih2]
        simp [List.forall_mem_cons, h]
      · intro hn
        simp only [noteUpdate, if_neg h] at hn ⊢
        rw [ih3 hn]
      · simp only [noteUpdate, if_neg h, List.map_cons]
        rw [ih4]

/-- C10 witness: updating note 1 with a payload whose own id field is 99
returns a note with id 1 that is present in the store. -/
theorem noteUpdate_preserves_id_witness :
    (⟨1, "t2", "b", 0⟩ : NoteRec).id = 1 ∧
      (⟨1, "t2", "b", 0⟩ : NoteRec) ∈
        (noteUpdate [⟨1, "a", "b", 0⟩] 1 ⟨some 99, some "t2", none, none⟩).2 :=
  (noteUpdate_preserves_id [⟨1, "a", "b", 0⟩] 1 ⟨some 99, some "t2", none, none⟩).1
    ⟨1, "t2", "b", 0⟩ rfl

end AITalks
